import Mathlib

/-! Verification of the pitch-detection core (src/dsp.rs) and the
pitch-correction engine (src/autotune.rs) of the musicai repository.

Audio samples are modelled as exact rationals on the detection side and as
exact reals on the correction side (whose normalized autocorrelation takes a
square root).  Machine floating-point literals such as 1e-10 are taken at
their exact decimal value; float division is exact field division.  Rust
usize subtraction on lengths is mirrored by truncated Nat subtraction, and
the Rust cast from a float to usize (truncation toward zero, saturating at 0
for negative values) is mirrored by Int.toNat of the floor, which agrees
with it on the reachable inputs. -/

open scoped Classical

namespace MusicAI

namespace Dsp

/-- Difference function of the YIN algorithm (dsp.rs, yin_algorithm, lines
47-55): for a given tau, the sum over j below n - tau of the squared
difference between buffer j and buffer (j + tau). -/
def diff (b : List ℚ) (tau : ℕ) : ℚ :=
  ∑ j ∈ Finset.range (b.length - tau),
    (b.getD j 0 - b.getD (j + tau) 0) * (b.getD j 0 - b.getD (j + tau) 0)

/-- The running sum accumulated by the cumulative-mean loop at iteration tau
(dsp.rs lines 61-63): diff 1 + ... + diff tau. -/
def runningSum (b : List ℚ) (tau : ℕ) : ℚ :=
  ∑ t ∈ Finset.Icc 1 tau, diff b t

/-- Cumulative mean normalized difference (dsp.rs lines 57-65): cmnd 0 = 1,
and for tau at least 1, cmnd tau = diff tau / (runningSum tau / tau). -/
def cmnd (b : List ℚ) (tau : ℕ) : ℚ :=
  if tau = 0 then 1 else diff b tau / (runningSum b tau / (tau : ℚ))

/-- The cmnd array of length n / 2 that the source builds and hands to the
parabolic-interpolation step. -/
def cmndList (b : List ℚ) : List ℚ :=
  (List.range (b.length / 2)).map (cmnd b)

/-- The condition tested by the threshold search at a given tau (dsp.rs
lines 71-78): cmnd tau below the 0.1 threshold, tau + 1 still inside the
array, and a local dip (cmnd tau < cmnd (tau + 1)). -/
def tauCond (b : List ℚ) (tau : ℕ) : Bool :=
  decide (cmnd b tau < 1 / 10 ∧ tau + 1 < b.length / 2 ∧ cmnd b tau < cmnd b (tau + 1))

/-- The threshold search (dsp.rs lines 67-78): scan tau from 2 up to
(exclusive) n / 2 and return the first tau satisfying tauCond; 0 when none
does (the loop leaves tau_estimate at its initial value 0). -/
def tauSearch (b : List ℚ) : ℕ :=
  match (List.range' 2 (b.length / 2 - 2)).find? (tauCond b) with
  | some tau => tau
  | none => 0

/-- The denominator s0 - 2 * s1 + s2 of the parabolic-interpolation
adjustment (dsp.rs line 103). -/
def parabolicDenom (data : List ℚ) (index : ℕ) : ℚ :=
  data.getD (index - 1) 0 - 2 * data.getD index 0 + data.getD (index + 1) 0

/-- Parabolic interpolation for sub-sample accuracy (dsp.rs lines 94-106):
at the array boundaries return the integer index, otherwise add the
adjustment 0.5 * (s0 - s2) / (s0 - 2 * s1 + s2).  The source performs the
division unguarded; here division is exact rational division (whose value
at a zero denominator is 0 by convention). -/
def parabolic_interpolation (data : List ℚ) (index : ℕ) : ℚ :=
  if index = 0 ∨ data.length - 1 ≤ index then (index : ℚ)
  else
    (index : ℚ) +
      1 / 2 * (data.getD (index - 1) 0 - data.getD (index + 1) 0) /
        parabolicDenom data index

/-- YIN pitch detection (dsp.rs lines 42-91): returns the pair (frequency,
confidence); (0, 0) when the threshold search finds no candidate. -/
def yin_algorithm (rate : ℕ) (b : List ℚ) : ℚ × ℚ :=
  let tauEstimate := tauSearch b
  if tauEstimate = 0 then (0, 0)
  else
    ((rate : ℚ) / parabolic_interpolation (cmndList b) tauEstimate,
      1 - cmnd b tauEstimate)

/-- Result record of pitch detection (dsp.rs lines 8-12). -/
structure PitchDetectionResult where
  frequency : ℚ
  confidence : ℚ
  deriving Repr, DecidableEq

/-- PitchDetector.detect (dsp.rs lines 28-39): reject buffers shorter than
512 samples, otherwise run the YIN algorithm.  The detector's sample_rate
field is the first argument. -/
def detect (rate : ℕ) (b : List ℚ) : Except String PitchDetectionResult :=
  if b.length < 512 then .error ("Buffer too small for pitch detection")
  else
    let r := yin_algorithm rate b
    .ok ⟨r.1, r.2⟩

end Dsp

namespace Autotune

/-- Numerator of the normalized autocorrelation at a given lag (autotune.rs
lines 85-86): sum of buffer i * buffer (i + lag) over i below len - lag. -/
def acNum (b : List ℝ) (lag : ℕ) : ℝ :=
  ∑ i ∈ Finset.range (b.length - lag), b.getD i 0 * b.getD (i + lag) 0

/-- First energy term of the normalized autocorrelation (autotune.rs line
87): sum of buffer i squared over the same range. -/
def acEnergy1 (b : List ℝ) (lag : ℕ) : ℝ :=
  ∑ i ∈ Finset.range (b.length - lag), b.getD i 0 * b.getD i 0

/-- Second energy term of the normalized autocorrelation (autotune.rs line
88): sum of buffer (i + lag) squared over the same range. -/
def acEnergy2 (b : List ℝ) (lag : ℕ) : ℝ :=
  ∑ i ∈ Finset.range (b.length - lag), b.getD (i + lag) 0 * b.getD (i + lag) 0

/-- AutotuneEngine::autocorrelation (autotune.rs lines 80-96): 0 when either
energy is below the 1e-10 floor, otherwise correlation divided by the square
root of the energy product. -/
noncomputable def autocorrelation (b : List ℝ) (lag : ℕ) : ℝ :=
  if acEnergy1 b lag < 1 / 10 ^ 10 ∨ acEnergy2 b lag < 1 / 10 ^ 10 then 0
  else acNum b lag / Real.sqrt (acEnergy1 b lag * acEnergy2 b lag)

/-- The list of candidate lags scanned by estimate_pitch (autotune.rs line
64): the half-open range from sample_rate / 1000 up to the minimum of
sample_rate / 50 and half the buffer length. -/
def searchedLags (rate : ℕ) (b : List ℝ) : List ℕ :=
  List.range' (rate / 1000) (min (rate / 50) (b.length / 2) - rate / 1000)

/-- One iteration of the best-correlation fold in estimate_pitch
(autotune.rs lines 64-70): replace the running best exactly when the new
correlation is strictly greater. -/
noncomputable def bestStep (b : List ℝ) (best : ℝ × ℕ) (period : ℕ) : ℝ × ℕ :=
  if best.1 < autocorrelation b period then (autocorrelation b period, period) else best

/-- The (best_correlation, best_period) pair computed by estimate_pitch's
search loop (autotune.rs lines 61-70), starting from best_correlation 0 and
best_period min_period. -/
noncomputable def bestCorrPeriod (rate : ℕ) (b : List ℝ) : ℝ × ℕ :=
  (searchedLags rate b).foldl (bestStep b) (0, rate / 1000)

/-- AutotuneEngine::estimate_pitch (autotune.rs lines 56-77): 0 when the
best correlation is below 0.5, otherwise sample_rate / best_period. -/
noncomputable def estimate_pitch (rate : ℕ) (b : List ℝ) : ℝ :=
  if (bestCorrPeriod rate b).1 < 1 / 2 then 0
  else (rate : ℝ) / ((bestCorrPeriod rate b).2 : ℝ)

/-- AutotuneEngine::pitch_shift (autotune.rs lines 99-121): identity when
the shift is within 0.001 of 1; otherwise each output index i reads the
original at source index (i * shift) cast to usize, linearly interpolating
with the next sample when one exists, copying the last sample when the
source index is exactly the last, and emitting 0 past the end. -/
noncomputable def pitch_shift (b : List ℝ) (shiftAmt : ℝ) : List ℝ :=
  if |shiftAmt - 1| < 1 / 1000 then b
  else
    (List.range b.length).map (fun (i : ℕ) =>
      let sourceIdx := (⌊(i : ℝ) * shiftAmt⌋).toNat
      if sourceIdx < b.length - 1 then
        b.getD sourceIdx 0 * (1 - ((i : ℝ) * shiftAmt - (sourceIdx : ℝ))) +
          b.getD (sourceIdx + 1) 0 * ((i : ℝ) * shiftAmt - (sourceIdx : ℝ))
      else if sourceIdx < b.length then b.getD sourceIdx 0
      else 0)

/-- AutotuneEngine::process (autotune.rs lines 22-53): reject an empty
buffer, then a strength outside [0, 1]; pass the buffer through when the
estimated pitch is below 50, otherwise resample by the blended shift amount
(pitch_ratio - 1) * strength + 1.  The engine's configured sample rate is
the first argument. -/
noncomputable def process (rate : ℕ) (b : List ℝ) (targetPitch strength : ℝ) :
    Except String (List ℝ) :=
  if b = [] then .error ("Empty buffer")
  else if ¬(0 ≤ strength ∧ strength ≤ 1) then
    .error ("Strength must be between 0.0 and 1.0")
  else if estimate_pitch rate b < 50 then .ok b
  else .ok (pitch_shift b ((targetPitch / estimate_pitch rate b - 1) * strength + 1))

/-- Largest absolute value over a buffer (0 for the empty buffer); used to
state the no-amplification property. -/
def maxAbs (b : List ℝ) : ℝ :=
  b.foldr (fun x m => max |x| m) 0

/-- Resampling formula as the specification words it (spec section 4.2,
"Resampling"): idx = floor(i * shift), frac = i * shift - idx; interpolate
when idx + 1 is in range, copy at the last index, silence past the end.
Stated for comparison against pitch_shift. -/
noncomputable def resampleSpec (b : List ℝ) (shiftAmt : ℝ) (i : ℕ) : ℝ :=
  let idx := (⌊(i : ℝ) * shiftAmt⌋).toNat
  let frac := (i : ℝ) * shiftAmt - (idx : ℝ)
  if idx + 1 < b.length then b.getD idx 0 * (1 - frac) + b.getD (idx + 1) 0 * frac
  else if idx = b.length - 1 then b.getD idx 0
  else 0

end Autotune

end MusicAI

namespace MusicAI

namespace Dsp

/-- A successful find? over an arithmetic range returns the first index of
the range satisfying the predicate. -/
theorem find?_range'_spec {p : ℕ → Bool} :
    ∀ {n s a : ℕ}, (List.range' s n).find? p = some a →
      p a = true ∧ s ≤ a ∧ a < s + n ∧ ∀ k, s ≤ k → k < a → p k = false := by
  intro n
  induction n with
  | zero => intro s a h; simp [List.range'] at h
  | succ m ih =>
    intro s a h
    rw [List.range'_succ] at h
    by_cases hp : p s = true
    · rw [List.find?_cons_of_pos _ hp] at h
      have hsa : s = a := by simpa using h
      subst hsa
      exact ⟨hp, le_refl _, by omega,
        fun k h1 h2 => absurd (h1.trans_lt h2) (lt_irrefl s)⟩
    · rw [List.find?_cons_of_neg _ hp] at h
      obtain ⟨hpa, h1, h2, h3⟩ := ih h
      refine ⟨hpa, by omega, by omega, fun k hk1 hk2 => ?_⟩
      rcases eq_or_lt_of_le hk1 with rfl | hk
      · exact (Bool.not_eq_true _).mp hp
      · exact h3 k (by omega) hk2

/-- The difference function is a sum of squares, hence nonnegative. -/
theorem diff_nonneg (b : List ℚ) (tau : ℕ) : 0 ≤ diff b tau :=
  Finset.sum_nonneg fun _ _ => mul_self_nonneg _

/-- The running sum of difference values is nonnegative. -/
theorem runningSum_nonneg (b : List ℚ) (tau : ℕ) : 0 ≤ runningSum b tau :=
  Finset.sum_nonneg fun t _ => diff_nonneg b t

/-- Every cmnd value is nonnegative. -/
theorem cmnd_nonneg (b : List ℚ) (tau : ℕ) : 0 ≤ cmnd b tau := by
  unfold cmnd
  split
  · norm_num
  · exact div_nonneg (diff_nonneg _ _)
      (div_nonneg (runningSum_nonneg _ _) (by positivity))

/-- When the lag-1 difference vanishes, adjacent samples are equal. -/
theorem adj_of_diff_one {b : List ℚ} (h : diff b 1 = 0) :
    ∀ j, j + 1 < b.length → b.getD j 0 = b.getD (j + 1) 0 := by
  intro j hj
  have hm : j ∈ Finset.range (b.length - 1) := Finset.mem_range.mpr (by omega)
  have h' : ∑ i ∈ Finset.range (b.length - 1),
      (b.getD i 0 - b.getD (i + 1) 0) * (b.getD i 0 - b.getD (i + 1) 0) = 0 := by
    simpa [diff] using h
  have h0 := (Finset.sum_eq_zero_iff_of_nonneg
      (fun i _ => mul_self_nonneg (b.getD i 0 - b.getD (i + 1) 0))).mp h' j hm
  have := mul_self_eq_zero.mp h0
  linarith

/-- When the lag-1 difference vanishes, the buffer is constant at any lag. -/
theorem getD_shift_of_diff_one {b : List ℚ} (h : diff b 1 = 0) :
    ∀ tau j, j + tau < b.length → b.getD j 0 = b.getD (j + tau) 0 := by
  intro tau
  induction tau with
  | zero => simp
  | succ m ih =>
    intro j hj
    have h1 : b.getD j 0 = b.getD (j + 1) 0 := adj_of_diff_one h j (by omega)
    have h2 : b.getD (j + 1) 0 = b.getD (j + 1 + m) 0 := ih (j + 1) (by omega)
    have h3 : j + 1 + m = j + (m + 1) := by omega
    rw [h1, h2, h3]

/-- When the lag-1 difference vanishes, every difference value vanishes. -/
theorem diff_zero_of_diff_one {b : List ℚ} (h : diff b 1 = 0) (tau : ℕ) :
    diff b tau = 0 := by
  unfold diff
  apply Finset.sum_eq_zero
  intro j hj
  have hj' : j + tau < b.length := by
    have := Finset.mem_range.mp hj; omega
  rw [← getD_shift_of_diff_one h tau j hj']
  ring

/-- When the lag-1 difference vanishes, every cmnd value at a positive lag
is zero (in exact arithmetic 0 / 0 = 0). -/
theorem cmnd_zero_of_diff_one {b : List ℚ} (h : diff b 1 = 0) (tau : ℕ)
    (ht : tau ≠ 0) : cmnd b tau = 0 := by
  unfold cmnd
  rw [if_neg ht, diff_zero_of_diff_one h, zero_div]

/-- When the lag-1 difference does not vanish, cmnd at lag 1 equals 1. -/
theorem cmnd_one {b : List ℚ} (h : diff b 1 ≠ 0) : cmnd b 1 = 1 := by
  have hrs : runningSum b 1 = diff b 1 := by simp [runningSum]
  simp only [cmnd, if_neg one_ne_zero, hrs, Nat.cast_one, div_one]
  exact div_self h

/-- Characterization of a successful threshold search: the found tau
satisfies the threshold, interiority and dip conditions, is at least 2, and
is the first index of the scan satisfying the search condition. -/
theorem tauSearch_spec {b : List ℚ} (h : tauSearch b ≠ 0) :
    cmnd b (tauSearch b) < 1 / 10 ∧ tauSearch b + 1 < b.length / 2 ∧
      cmnd b (tauSearch b) < cmnd b (tauSearch b + 1) ∧ 2 ≤ tauSearch b ∧
      ∀ k, 2 ≤ k → k < tauSearch b → tauCond b k = false := by
  rcases hf : (List.range' 2 (b.length / 2 - 2)).find? (tauCond b) with _ | a
  · exfalso; apply h; unfold tauSearch; rw [hf]
  · have ha : tauSearch b = a := by unfold tauSearch; rw [hf]
    obtain ⟨h1, h2, _, h4⟩ := find?_range'_spec hf
    rw [ha]
    have h1' := of_decide_eq_true h1
    exact ⟨h1'.1, h1'.2.1, h1'.2.2, h2, fun k hk1 hk2 => h4 k hk1 hk2⟩

/-- At the selected tau, the preceding cmnd value is at least the selected
one: at tau = 2 because cmnd 1 is 1 (or the whole array degenerates), and
at larger tau because the scan would otherwise have stopped earlier. -/
theorem cmnd_prev_ge {b : List ℚ} (h : tauSearch b ≠ 0) :
    cmnd b (tauSearch b) ≤ cmnd b (tauSearch b - 1) := by
  obtain ⟨h1, h2, h3, h4, h5⟩ := tauSearch_spec h
  by_cases hd : diff b 1 = 0
  · exfalso
    have e1 : cmnd b (tauSearch b) = 0 := cmnd_zero_of_diff_one hd _ (by omega)
    have e2 : cmnd b (tauSearch b + 1) = 0 := cmnd_zero_of_diff_one hd _ (by omega)
    rw [e1, e2] at h3
    exact lt_irrefl 0 h3
  · rcases eq_or_lt_of_le h4 with heq | hgt
    · have ht1 : tauSearch b - 1 = 1 := by omega
      rw [ht1, cmnd_one hd]
      linarith
    · have hk := h5 (tauSearch b - 1) (by omega) (by omega)
      have hcond : ¬(cmnd b (tauSearch b - 1) < 1 / 10 ∧
          (tauSearch b - 1) + 1 < b.length / 2 ∧
          cmnd b (tauSearch b - 1) < cmnd b ((tauSearch b - 1) + 1)) := by
        simpa [tauCond] using hk
      have ht1 : (tauSearch b - 1) + 1 = tauSearch b := by omega
      rw [ht1] at hcond
      by_contra hlt
      push_neg at hlt
      exact hcond ⟨lt_trans hlt h1, by omega, hlt⟩

/-- The cmnd array has length half the buffer length. -/
theorem cmndList_length (b : List ℚ) : (cmndList b).length = b.length / 2 := by
  simp [cmndList]

/-- Reading the cmnd array inside its bounds gives the cmnd value. -/
theorem cmndList_getD {b : List ℚ} {k : ℕ} (hk : k < b.length / 2) :
    (cmndList b).getD k 0 = cmnd b k := by
  have hl : k < (cmndList b).length := by rw [cmndList_length]; exact hk
  rw [List.getD_eq_getElem _ _ hl]
  simp [cmndList]

/-- At the selected tau, the parabolic denominator expands to the three
surrounding cmnd values. -/
theorem denomEq {b : List ℚ} (h : tauSearch b ≠ 0) :
    parabolicDenom (cmndList b) (tauSearch b) =
      cmnd b (tauSearch b - 1) - 2 * cmnd b (tauSearch b) +
        cmnd b (tauSearch b + 1) := by
  obtain ⟨_, h2, _, h4, _⟩ := tauSearch_spec h
  unfold parabolicDenom
  rw [cmndList_getD (by omega), cmndList_getD (by omega), cmndList_getD (by omega)]

/-- At the selected tau the parabolic denominator is strictly positive. -/
theorem denom_pos {b : List ℚ} (h : tauSearch b ≠ 0) :
    0 < parabolicDenom (cmndList b) (tauSearch b) := by
  obtain ⟨h1, h2, h3, h4, _⟩ := tauSearch_spec h
  have hprev := cmnd_prev_ge h
  rw [denomEq h]
  linarith

end Dsp

end MusicAI

namespace MusicAI

namespace Dsp

/-- At the selected tau the boundary test of parabolic interpolation fails
and the refinement formula applies, with the array reads giving the cmnd
values around tau. -/
theorem parabolic_at_selected {b : List ℚ} (h : tauSearch b ≠ 0) :
    parabolic_interpolation (cmndList b) (tauSearch b) =
      (tauSearch b : ℚ) +
        1 / 2 * (cmnd b (tauSearch b - 1) - cmnd b (tauSearch b + 1)) /
          parabolicDenom (cmndList b) (tauSearch b) := by
  obtain ⟨h1, h2, h3, h4, _⟩ := tauSearch_spec h
  unfold parabolic_interpolation
  rw [if_neg]
  · rw [cmndList_getD (by omega), cmndList_getD (by omega)]
  · simp only [cmndList_length, not_or, not_le]
    omega

/-- At the selected tau the refined period is at least 3/2: the parabolic
adjustment is bounded by 1/2 in absolute value because its numerator is
dominated by its (positive) denominator. -/
theorem refined_lower {b : List ℚ} (h : tauSearch b ≠ 0) :
    (3 : ℚ) / 2 ≤ parabolic_interpolation (cmndList b) (tauSearch b) := by
  obtain ⟨h1, h2, h3, h4, _⟩ := tauSearch_spec h
  have hprev := cmnd_prev_ge h
  have hD := denom_pos h
  rw [parabolic_at_selected h, denomEq h]
  rw [denomEq h] at hD
  have hadj : -(1 / 2 : ℚ) ≤ 1 / 2 * (cmnd b (tauSearch b - 1) - cmnd b (tauSearch b + 1)) /
      (cmnd b (tauSearch b - 1) - 2 * cmnd b (tauSearch b) + cmnd b (tauSearch b + 1)) := by
    rw [le_div_iff₀ hD]
    linarith
  have htau2 : (2 : ℚ) ≤ (tauSearch b : ℚ) := by exact_mod_cast h4
  linarith

/-- On a successful threshold search, the YIN result is the refined
frequency paired with 1 minus the cmnd value at the selected tau. -/
theorem yin_eq {rate : ℕ} {b : List ℚ} (hts : tauSearch b ≠ 0) :
    yin_algorithm rate b =
      ((rate : ℚ) / parabolic_interpolation (cmndList b) (tauSearch b),
        1 - cmnd b (tauSearch b)) := by
  simp only [yin_algorithm]
  rw [if_neg hts]

/-- The pair returned by the YIN algorithm always satisfies: frequency in
[0, (2/3) * rate] and confidence in [0, 1]. -/
theorem yin_bounds (rate : ℕ) (b : List ℚ) :
    0 ≤ (yin_algorithm rate b).1 ∧ (yin_algorithm rate b).1 ≤ 2 / 3 * rate ∧
      0 ≤ (yin_algorithm rate b).2 ∧ (yin_algorithm rate b).2 ≤ 1 := by
  by_cases hts : tauSearch b = 0
  · simp only [yin_algorithm, hts, if_pos rfl]
    refine ⟨le_refl 0, by positivity, le_refl 0, by norm_num⟩
  · obtain ⟨h1, h2, h3, h4, _⟩ := tauSearch_spec hts
    have href := refined_lower hts
    have hrefpos : (0 : ℚ) < parabolic_interpolation (cmndList b) (tauSearch b) := by
      linarith
    rw [yin_eq hts]
    refine ⟨?_, ?_, ?_, ?_⟩
    · exact div_nonneg (Nat.cast_nonneg rate) (le_of_lt hrefpos)
    · show (rate : ℚ) / parabolic_interpolation (cmndList b) (tauSearch b) ≤ 2 / 3 * rate
      rw [div_le_iff₀ hrefpos]
      have hr : (0 : ℚ) ≤ 2 / 3 * rate := by positivity
      nlinarith [mul_le_mul_of_nonneg_left href hr]
    · show (0 : ℚ) ≤ 1 - cmnd b (tauSearch b)
      linarith
    · show (1 : ℚ) - cmnd b (tauSearch b) ≤ 1
      have := cmnd_nonneg b (tauSearch b)
      linarith

/-- C1: at every tau actually selected by the threshold search (a candidate
strictly inside the cmnd array), the parabolic denominator
cmnd (tau-1) - 2 * cmnd tau + cmnd (tau+1) is strictly positive — so the
unguarded division of the source never divides by zero there — and under
the claim's zero-denominator hypothesis the refined period equals the
unrefined integer index tau. -/
theorem claim1_parabolic_guard {b : List ℚ} (h : tauSearch b ≠ 0) :
    0 < parabolicDenom (cmndList b) (tauSearch b) ∧
      (parabolicDenom (cmndList b) (tauSearch b) = 0 →
        parabolic_interpolation (cmndList b) (tauSearch b) = (tauSearch b : ℚ)) :=
  ⟨denom_pos h, fun hz => absurd hz (ne_of_gt (denom_pos h))⟩

/-- Witness for C1 on an alternating buffer of length 12, whose threshold
search selects tau = 2. -/
theorem claim1_witness :
    0 < parabolicDenom (cmndList [1, 0, 1, 0, 1, 0, 1, 0, 1, 0, 1, 0])
      (tauSearch [1, 0, 1, 0, 1, 0, 1, 0, 1, 0, 1, 0]) :=
  (claim1_parabolic_guard (by with_unfolding_all decide)).1

/-- C5: detect fails with the insufficient-samples error exactly on buffers
shorter than 512 samples, and succeeds with some estimate on all others. -/
theorem claim5_detect_error_iff (rate : ℕ) (b : List ℚ) :
    (b.length < 512 → detect rate b = .error ("Buffer too small for pitch detection")) ∧
      (512 ≤ b.length → ∃ r, detect rate b = .ok r) := by
  constructor
  · intro h
    simp [detect, h]
  · intro h
    refine ⟨⟨(yin_algorithm rate b).1, (yin_algorithm rate b).2⟩, ?_⟩
    simp [detect, Nat.not_lt.mpr h]

/-- Witness for C5: the empty buffer errors, a 512-sample buffer succeeds. -/
theorem claim5_witness :
    detect 48000 [] = .error ("Buffer too small for pitch detection") ∧
      ∃ r, detect 48000 (List.replicate 512 (0 : ℚ)) = .ok r :=
  ⟨(claim5_detect_error_iff 48000 []).1 (by rw [List.length_nil]; omega),
    (claim5_detect_error_iff 48000 (List.replicate 512 (0 : ℚ))).2
      (by rw [List.length_replicate])⟩

/-- C7: on every buffer of length at least 512, detect succeeds and the
estimate satisfies 0 ≤ frequency ≤ (2/3) * rate and confidence in [0, 1];
in this exact-arithmetic embedding the fields are rationals, so the finite
bounds stand in for the absence of NaN or infinity. -/
theorem claim7_estimate_bounds (rate : ℕ) (b : List ℚ) (h : 512 ≤ b.length) :
    ∃ r, detect rate b = .ok r ∧ 0 ≤ r.frequency ∧ r.frequency ≤ 2 / 3 * rate ∧
      0 ≤ r.confidence ∧ r.confidence ≤ 1 := by
  obtain ⟨b1, b2, b3, b4⟩ := yin_bounds rate b
  refine ⟨⟨(yin_algorithm rate b).1, (yin_algorithm rate b).2⟩, ?_, b1, b2, b3, b4⟩
  simp [detect, Nat.not_lt.mpr h]

/-- Witness for C7 at the 512-sample silence buffer and rate 48000. -/
theorem claim7_witness :
    ∃ r, detect 48000 (List.replicate 512 (0 : ℚ)) = .ok r ∧
      0 ≤ r.frequency ∧ r.frequency ≤ 2 / 3 * 48000 ∧
      0 ≤ r.confidence ∧ r.confidence ≤ 1 :=
  claim7_estimate_bounds 48000 (List.replicate 512 (0 : ℚ)) (by rw [List.length_replicate])

/-- Every sample read of the all-zero buffer yields 0. -/
theorem getD_replicate_zero (n j : ℕ) : (List.replicate n (0 : ℚ)).getD j 0 = 0 := by
  induction n generalizing j with
  | zero => simp
  | succ m ih =>
    cases j with
    | zero => simp [List.replicate_succ]
    | succ k => simp [List.replicate_succ, ih]

/-- On silence every difference value is 0. -/
theorem diff_replicate (n tau : ℕ) : diff (List.replicate n (0 : ℚ)) tau = 0 := by
  unfold diff
  apply Finset.sum_eq_zero
  intro j _
  rw [getD_replicate_zero, getD_replicate_zero]
  ring

/-- On silence the threshold search finds no candidate. -/
theorem tauSearch_replicate (n : ℕ) : tauSearch (List.replicate n (0 : ℚ)) = 0 := by
  have hnone : (List.range' 2 ((List.replicate n (0 : ℚ)).length / 2 - 2)).find?
      (tauCond (List.replicate n 0)) = none := by
    rw [List.find?_eq_none]
    intro a ha
    have h2 : 2 ≤ a := (List.mem_range'_1.mp ha).1
    simp only [tauCond, decide_eq_true_eq, not_and]
    intro _ _
    rw [cmnd_zero_of_diff_one (diff_replicate n 1) a (by omega),
      cmnd_zero_of_diff_one (diff_replicate n 1) (a + 1) (by omega)]
    exact lt_irrefl 0
  unfold tauSearch
  rw [hnone]

/-- C9: on an all-zero buffer of length at least 512, detect succeeds with
frequency 0 and confidence 0. -/
theorem claim9_silence (rate n : ℕ) (h : 512 ≤ n) :
    detect rate (List.replicate n (0 : ℚ)) = .ok ⟨0, 0⟩ := by
  have hlen : (List.replicate n (0 : ℚ)).length = n := List.length_replicate n 0
  simp [detect, yin_algorithm, tauSearch_replicate, hlen, Nat.not_lt.mpr h]

/-- Witness for C9 at n = 512 and rate 48000. -/
theorem claim9_witness :
    detect 48000 (List.replicate 512 (0 : ℚ)) = .ok ⟨0, 0⟩ :=
  claim9_silence 48000 512 (by norm_num)

end Dsp

end MusicAI

namespace MusicAI

namespace Autotune

/-- The best-correlation component never decreases along the fold. -/
theorem bestFold_fst_ge_init (b : List ℝ) :
    ∀ (l : List ℕ) (init : ℝ × ℕ), init.1 ≤ (l.foldl (bestStep b) init).1 := by
  intro l
  induction l with
  | nil => intro init; exact le_refl _
  | cons a l ih =>
    intro init
    refine le_trans ?_ (ih (bestStep b init a))
    unfold bestStep
    split
    · next hlt => exact le_of_lt hlt
    · exact le_refl _

/-- The final best correlation dominates the correlation at every scanned
lag. -/
theorem bestFold_ub (b : List ℝ) :
    ∀ (l : List ℕ) (init : ℝ × ℕ) (lag : ℕ), lag ∈ l →
      autocorrelation b lag ≤ (l.foldl (bestStep b) init).1 := by
  intro l
  induction l with
  | nil => intro init lag h; simp at h
  | cons a l ih =>
    intro init lag h
    rcases List.mem_cons.mp h with rfl | hm
    · refine le_trans ?_ (bestFold_fst_ge_init b l (bestStep b init lag))
      unfold bestStep
      split
      · exact le_refl _
      · next hnlt => exact not_lt.mp hnlt
    · exact ih (bestStep b init a) lag hm

/-- The fold either keeps its initial state or ends at the correlation and
lag of some scanned lag. -/
theorem bestFold_attained (b : List ℝ) :
    ∀ (l : List ℕ) (init : ℝ × ℕ), l.foldl (bestStep b) init = init ∨
      ∃ lag ∈ l, l.foldl (bestStep b) init = (autocorrelation b lag, lag) := by
  intro l
  induction l with
  | nil => intro init; exact Or.inl rfl
  | cons a l ih =>
    intro init
    rcases ih (bestStep b init a) with heq | ⟨lag, hm, heq⟩
    · rw [List.foldl_cons, heq]
      unfold bestStep
      split
      · exact Or.inr ⟨a, List.mem_cons_self a l, rfl⟩
      · exact Or.inl rfl
    · exact Or.inr ⟨lag, List.mem_cons_of_mem a hm, by rw [List.foldl_cons, heq]⟩

/-- Case analysis of a successful process call: the buffer was nonempty, the
strength valid, and the output is either the input (passthrough) or the
pitch-shifted input with the blended shift amount. -/
theorem process_ok_cases {rate : ℕ} {b out : List ℝ} {t σ : ℝ}
    (h : process rate b t σ = .ok out) :
    b ≠ [] ∧ 0 ≤ σ ∧ σ ≤ 1 ∧
      (out = b ∨ (50 ≤ estimate_pitch rate b ∧
        out = pitch_shift b ((t / estimate_pitch rate b - 1) * σ + 1))) := by
  unfold process at h
  by_cases hb : b = []
  · rw [if_pos hb] at h
    exact absurd h (by simp)
  · rw [if_neg hb] at h
    by_cases hσ : 0 ≤ σ ∧ σ ≤ 1
    · rw [if_neg (not_not_intro hσ)] at h
      by_cases hp : estimate_pitch rate b < 50
      · rw [if_pos hp] at h
        have hbo : b = out := by simpa using h
        exact ⟨hb, hσ.1, hσ.2, Or.inl hbo.symm⟩
      · rw [if_neg hp] at h
        have hbo : pitch_shift b ((t / estimate_pitch rate b - 1) * σ + 1) = out := by
          simpa using h
        exact ⟨hb, hσ.1, hσ.2, Or.inr ⟨not_lt.mp hp, hbo.symm⟩⟩
    · rw [if_pos hσ] at h
      exact absurd h (by simp)

/-- pitch_shift preserves the buffer length. -/
theorem pitch_shift_length (b : List ℝ) (s : ℝ) :
    (pitch_shift b s).length = b.length := by
  unfold pitch_shift
  split
  · rfl
  · rw [List.length_map, List.length_range]

/-- Pointwise value of pitch_shift in the resampling branch. -/
theorem pitch_shift_getD {b : List ℝ} {s : ℝ} (hns : ¬|s - 1| < 1 / 1000) {i : ℕ}
    (hi : i < b.length) :
    (pitch_shift b s).getD i 0 =
      if (⌊(i : ℝ) * s⌋).toNat < b.length - 1 then
        b.getD (⌊(i : ℝ) * s⌋).toNat 0 * (1 - ((i : ℝ) * s - (((⌊(i : ℝ) * s⌋).toNat : ℕ) : ℝ))) +
          b.getD ((⌊(i : ℝ) * s⌋).toNat + 1) 0 * ((i : ℝ) * s - (((⌊(i : ℝ) * s⌋).toNat : ℕ) : ℝ))
      else if (⌊(i : ℝ) * s⌋).toNat < b.length then b.getD (⌊(i : ℝ) * s⌋).toNat 0
      else 0 := by
  unfold pitch_shift
  rw [if_neg hns]
  rw [List.getD_eq_getElem _ _ (by simpa using hi)]
  rw [List.getElem_map, List.getElem_range]

/-- In the resampling branch and on indices inside the buffer, pitch_shift
agrees with the specification's per-index resampling formula. -/
theorem pitch_shift_eq_spec {b : List ℝ} {s : ℝ} (hb : b ≠ [])
    (hns : 1 / 1000 ≤ |s - 1|) (i : ℕ) (hi : i < b.length) :
    (pitch_shift b s).getD i 0 = resampleSpec b s i := by
  have hlen : 0 < b.length := List.length_pos.mpr hb
  rw [pitch_shift_getD (not_lt.mpr hns) hi]
  unfold resampleSpec
  by_cases h1 : (⌊(i : ℝ) * s⌋).toNat + 1 < b.length
  · rw [if_pos (by omega), if_pos h1]
  · rw [if_neg (by omega), if_neg h1]
    by_cases h2 : (⌊(i : ℝ) * s⌋).toNat < b.length
    · rw [if_pos h2, if_pos (by omega)]
    · rw [if_neg h2, if_neg (by omega)]

/-- maxAbs is nonnegative. -/
theorem maxAbs_nonneg (b : List ℝ) : 0 ≤ maxAbs b := by
  induction b with
  | nil => simp [maxAbs]
  | cons x l ih =>
    simp only [maxAbs, List.foldr_cons] at ih ⊢
    exact le_trans ih (le_max_right _ _)

/-- Every element of a buffer is bounded in absolute value by maxAbs. -/
theorem abs_le_maxAbs {b : List ℝ} {x : ℝ} (hx : x ∈ b) : |x| ≤ maxAbs b := by
  induction b with
  | nil => simp at hx
  | cons a l ih =>
    rcases List.mem_cons.mp hx with rfl | hm
    · exact le_max_left _ _
    · exact le_trans (ih hm)
        (by simp only [maxAbs, List.foldr_cons]; exact le_max_right _ _)

/-- In-bounds reads of a buffer are bounded in absolute value by maxAbs. -/
theorem getD_abs_le_maxAbs {b : List ℝ} {i : ℕ} (hi : i < b.length) :
    |b.getD i 0| ≤ maxAbs b := by
  rw [List.getD_eq_getElem _ _ hi]
  exact abs_le_maxAbs (List.getElem_mem hi)

end Autotune

end MusicAI

namespace MusicAI

namespace Autotune

/-- C6: with strength 0 the blended shift amount is exactly 1, so a process
call on any nonempty buffer succeeds and returns the input buffer itself
(either through the no-pitch passthrough or the near-unity short circuit of
pitch_shift). -/
theorem claim6_zero_strength (rate : ℕ) (b : List ℝ) (t : ℝ) (hb : b ≠ []) :
    process rate b t 0 = .ok b := by
  unfold process
  rw [if_neg hb, if_neg (by norm_num)]
  by_cases hp : estimate_pitch rate b < 50
  · rw [if_pos hp]
  · rw [if_neg hp]
    have hone : (t / estimate_pitch rate b - 1) * 0 + 1 = 1 := by ring
    rw [hone]
    unfold pitch_shift
    rw [if_pos (by norm_num)]

/-- Witness for C6 on a concrete two-sample buffer. -/
theorem claim6_witness : process 48000 ([1, 2] : List ℝ) 440 0 = .ok [1, 2] :=
  claim6_zero_strength 48000 [1, 2] 440 (by simp)

/-- Counterexample to C4 as stated: with an empty buffer and strength 5
(outside [0, 1]) the call fails with the empty-buffer error, not the
invalid-parameter one, because the emptiness check runs first. -/
theorem claim4_counterexample :
    ¬(0 ≤ (5 : ℝ) ∧ (5 : ℝ) ≤ 1) ∧
      process 48000 ([] : List ℝ) 440 5 = .error ("Empty buffer") := by
  constructor
  · norm_num
  · unfold process
    rw [if_pos rfl]

/-- C4 (amended): the empty-buffer error occurs exactly on empty input; the
invalid-parameter error occurs exactly on nonempty input with strength
outside [0, 1]; and the call succeeds exactly when the input is nonempty and
the strength is in [0, 1].  Being a pure function returning Except, an
erroring call produces no output buffer and changes no state. -/
theorem claim4_errors (rate : ℕ) (b : List ℝ) (t σ : ℝ) :
    (process rate b t σ = .error ("Empty buffer") ↔ b = []) ∧
      (process rate b t σ = .error ("Strength must be between 0.0 and 1.0") ↔
        b ≠ [] ∧ ¬(0 ≤ σ ∧ σ ≤ 1)) ∧
      ((∃ out, process rate b t σ = .ok out) ↔ b ≠ [] ∧ 0 ≤ σ ∧ σ ≤ 1) := by
  by_cases hb : b = []
  · have hE : process rate b t σ = .error ("Empty buffer") := by
      unfold process
      rw [if_pos hb]
    rw [hE]
    refine ⟨⟨fun _ => hb, fun _ => rfl⟩, ⟨fun h => ?_, fun h => absurd hb h.1⟩,
      ⟨fun ⟨out, h⟩ => ?_, fun h => absurd hb h.1⟩⟩
    · exact absurd (Except.error.inj h) (by decide)
    · exact absurd h (by simp)
  · by_cases hσ : 0 ≤ σ ∧ σ ≤ 1
    · have hOk : ∃ out, process rate b t σ = .ok out := by
        unfold process
        rw [if_neg hb, if_neg (not_not_intro hσ)]
        by_cases hp : estimate_pitch rate b < 50
        · rw [if_pos hp]; exact ⟨b, rfl⟩
        · rw [if_neg hp]; exact ⟨_, rfl⟩
      obtain ⟨out, hOk⟩ := hOk
      rw [hOk]
      refine ⟨⟨fun h => absurd h (by simp), fun h => absurd h hb⟩,
        ⟨fun h => absurd h (by simp), fun h => absurd hσ h.2⟩,
        ⟨fun _ => ⟨hb, hσ⟩, fun _ => ⟨out, rfl⟩⟩⟩
    · have hS : process rate b t σ = .error ("Strength must be between 0.0 and 1.0") := by
        unfold process
        rw [if_neg hb, if_pos hσ]
      rw [hS]
      refine ⟨⟨fun h => absurd (Except.error.inj h) (by decide), fun h => absurd h hb⟩,
        ⟨fun _ => ⟨hb, hσ⟩, fun _ => rfl⟩,
        ⟨fun ⟨_, h⟩ => absurd h (by simp), fun h => absurd ⟨h.2.1, h.2.2⟩ hσ⟩⟩

end Autotune

end MusicAI

namespace MusicAI

namespace Autotune

/-- With sample rate 3000 and a two-sample buffer, the scanned lag range
[3, min 60 1) is empty. -/
theorem searchedLags_small : searchedLags 3000 ([1, 2] : List ℝ) = [] := rfl

/-- On the empty lag range the fold keeps its initial state (0, 3). -/
theorem bestCorrPeriod_small : bestCorrPeriod 3000 ([1, 2] : List ℝ) = (0, 3) := by
  unfold bestCorrPeriod
  rw [searchedLags_small]
  rfl

/-- On the two-sample buffer the coarse estimate is 0 (best correlation 0). -/
theorem estimate_small : estimate_pitch 3000 ([1, 2] : List ℝ) = 0 := by
  unfold estimate_pitch
  rw [bestCorrPeriod_small]
  norm_num

/-- A concrete successful passthrough call of process. -/
theorem process_small_eval : process 3000 ([1, 2] : List ℝ) 440 (1 / 2) = .ok [1, 2] := by
  unfold process
  rw [if_neg (by simp), if_neg (by norm_num), if_pos (by rw [estimate_small]; norm_num)]

/-- C3: the best correlation of the coarse search dominates the normalized
autocorrelation at every scanned lag of [rate/1000, min (rate/50) (len/2));
when it is below 0.5 the process call succeeds returning the input buffer
unchanged; and otherwise the current pitch used for the shift computation is
rate divided by the best lag, which is a scanned lag attaining the best
correlation. -/
theorem claim3_coarse_estimator (rate : ℕ) (b : List ℝ) (t σ : ℝ) (hb : b ≠ [])
    (h0 : 0 ≤ σ) (h1 : σ ≤ 1) :
    (∀ lag ∈ searchedLags rate b, autocorrelation b lag ≤ (bestCorrPeriod rate b).1) ∧
      ((bestCorrPeriod rate b).1 < 1 / 2 → process rate b t σ = .ok b) ∧
      (1 / 2 ≤ (bestCorrPeriod rate b).1 →
        estimate_pitch rate b = (rate : ℝ) / ((bestCorrPeriod rate b).2 : ℝ) ∧
        ∃ lag ∈ searchedLags rate b,
          (bestCorrPeriod rate b).1 = autocorrelation b lag ∧
          (bestCorrPeriod rate b).2 = lag) := by
  refine ⟨?_, ?_, ?_⟩
  · intro lag hm
    unfold bestCorrPeriod
    exact bestFold_ub b _ _ lag hm
  · intro hlt
    have hep : estimate_pitch rate b = 0 := by
      unfold estimate_pitch
      rw [if_pos hlt]
    unfold process
    rw [if_neg hb, if_neg (not_not_intro ⟨h0, h1⟩), if_pos (by rw [hep]; norm_num)]
  · intro hge
    have hnlt := not_lt.mpr hge
    refine ⟨by unfold estimate_pitch; rw [if_neg hnlt], ?_⟩
    rcases bestFold_attained b (searchedLags rate b) (0, rate / 1000) with heq | ⟨lag, hm, heq⟩
    · exfalso
      have h0' : (bestCorrPeriod rate b).1 = 0 := by
        unfold bestCorrPeriod
        rw [heq]
      rw [h0'] at hge
      norm_num at hge
    · refine ⟨lag, hm, ?_, ?_⟩
      · unfold bestCorrPeriod
        rw [heq]
      · unfold bestCorrPeriod
        rw [heq]

/-- Witness for C3 at rate 3000 on a two-sample buffer. -/
theorem claim3_witness :
    (∀ lag ∈ searchedLags 3000 ([1, 2] : List ℝ),
        autocorrelation [1, 2] lag ≤ (bestCorrPeriod 3000 ([1, 2] : List ℝ)).1) ∧
      ((bestCorrPeriod 3000 ([1, 2] : List ℝ)).1 < 1 / 2 →
        process 3000 ([1, 2] : List ℝ) 440 (1 / 2) = .ok [1, 2]) ∧
      (1 / 2 ≤ (bestCorrPeriod 3000 ([1, 2] : List ℝ)).1 →
        estimate_pitch 3000 [1, 2] =
          ((3000 : ℕ) : ℝ) / ((bestCorrPeriod 3000 ([1, 2] : List ℝ)).2 : ℝ) ∧
        ∃ lag ∈ searchedLags 3000 ([1, 2] : List ℝ),
          (bestCorrPeriod 3000 ([1, 2] : List ℝ)).1 = autocorrelation [1, 2] lag ∧
          (bestCorrPeriod 3000 ([1, 2] : List ℝ)).2 = lag) :=
  claim3_coarse_estimator 3000 [1, 2] 440 (1 / 2) (by simp) (by norm_num) (by norm_num)

/-- C2: a successful process call preserves the buffer length; in the
resampling branch with a nonnegative shift amount s the output at each index
i follows the specification's interpolation formula with idx = floor (i * s);
and for s = 2 the first output sample equals the first input sample. -/
theorem claim2_resample (rate : ℕ) (b : List ℝ) (t σ s : ℝ) (hb : b ≠ [])
    (h0 : 0 ≤ σ) (h1 : σ ≤ 1) (hs : 0 ≤ s) :
    (∀ out, process rate b t σ = .ok out → out.length = b.length) ∧
      (1 / 1000 ≤ |s - 1| → ∀ i, i < b.length →
        (pitch_shift b s).getD i 0 = resampleSpec b s i) ∧
      (pitch_shift b 2).length = b.length ∧
      (pitch_shift b 2).getD 0 0 = b.getD 0 0 := by
  refine ⟨?_, ?_, pitch_shift_length b 2, ?_⟩
  · intro out hout
    obtain ⟨_, _, _, hcase⟩ := process_ok_cases hout
    rcases hcase with rfl | ⟨_, rfl⟩
    · rfl
    · exact pitch_shift_length b _
  · intro hns i hi
    exact pitch_shift_eq_spec hb hns i hi
  · have hlen : 0 < b.length := List.length_pos.mpr hb
    have h2 : ¬|(2 : ℝ) - 1| < 1 / 1000 := by norm_num
    have e0 : (⌊((0 : ℕ) : ℝ) * 2⌋).toNat = 0 := by norm_num
    rw [pitch_shift_getD h2 hlen, e0]
    by_cases hc1 : 0 < b.length - 1
    · rw [if_pos hc1]
      norm_num
    · rw [if_neg hc1, if_pos hlen]

/-- Witness for C2 at rate 3000, buffer [1, 2], strength 1/2 and shift 2. -/
theorem claim2_witness :
    (∀ out, process 3000 ([1, 2] : List ℝ) 440 (1 / 2) = .ok out →
        out.length = ([1, 2] : List ℝ).length) ∧
      (1 / 1000 ≤ |(2 : ℝ) - 1| → ∀ i, i < ([1, 2] : List ℝ).length →
        (pitch_shift ([1, 2] : List ℝ) 2).getD i 0 = resampleSpec ([1, 2] : List ℝ) 2 i) ∧
      (pitch_shift ([1, 2] : List ℝ) 2).length = ([1, 2] : List ℝ).length ∧
      (pitch_shift ([1, 2] : List ℝ) 2).getD 0 0 = ([1, 2] : List ℝ).getD 0 0 :=
  claim2_resample 3000 [1, 2] 440 (1 / 2) 2 (by simp) (by norm_num) (by norm_num) (by norm_num)

end Autotune

end MusicAI

namespace MusicAI

namespace Autotune

/-- C10 (amended): for a nonnegative target frequency, a successful process
call never amplifies: every output sample is bounded in absolute value by
the largest input magnitude, since each output sample is an unchanged input
sample, a convex combination of two adjacent samples, or 0. -/
theorem claim10_no_amplification (rate : ℕ) (b : List ℝ) (t σ : ℝ) (out : List ℝ)
    (ht : 0 ≤ t) (h : process rate b t σ = .ok out) :
    ∀ x ∈ out, |x| ≤ maxAbs b := by
  obtain ⟨hb, h0, h1, hcase⟩ := process_ok_cases h
  rcases hcase with rfl | ⟨hp, rfl⟩
  · exact fun x hx => abs_le_maxAbs hx
  · have hest : (0 : ℝ) < estimate_pitch rate b := lt_of_lt_of_le (by norm_num) hp
    have hs : 0 ≤ (t / estimate_pitch rate b - 1) * σ + 1 := by
      have hr : 0 ≤ t / estimate_pitch rate b := div_nonneg ht (le_of_lt hest)
      have hmul := mul_le_mul_of_nonneg_right
        (show (-1 : ℝ) ≤ t / estimate_pitch rate b - 1 by linarith) h0
      linarith
    intro x hx
    unfold pitch_shift at hx
    split_ifs at hx with hsh
    · exact abs_le_maxAbs hx
    · obtain ⟨i, hir, hxeq⟩ := List.mem_map.mp hx
      have hi : i < b.length := List.mem_range.mp hir
      rw [← hxeq]
      dsimp only
      have hynn : 0 ≤ (i : ℝ) * ((t / estimate_pitch rate b - 1) * σ + 1) :=
        mul_nonneg (Nat.cast_nonneg i) hs
      have hflnn : (0 : ℤ) ≤ ⌊(i : ℝ) * ((t / estimate_pitch rate b - 1) * σ + 1)⌋ :=
        Int.floor_nonneg.mpr hynn
      have hc : (((⌊(i : ℝ) * ((t / estimate_pitch rate b - 1) * σ + 1)⌋).toNat : ℕ) : ℝ) =
          ((⌊(i : ℝ) * ((t / estimate_pitch rate b - 1) * σ + 1)⌋ : ℤ) : ℝ) := by
        exact_mod_cast congrArg (fun z : ℤ => (z : ℝ)) (Int.toNat_of_nonneg hflnn)
      split_ifs with hb1 hb2
      · have hfrac0 : 0 ≤ (i : ℝ) * ((t / estimate_pitch rate b - 1) * σ + 1) -
            ((⌊(i : ℝ) * ((t / estimate_pitch rate b - 1) * σ + 1)⌋).toNat : ℝ) := by
          rw [hc]
          exact sub_nonneg.mpr (Int.floor_le _)
        have hfrac1 : (i : ℝ) * ((t / estimate_pitch rate b - 1) * σ + 1) -
            ((⌊(i : ℝ) * ((t / estimate_pitch rate b - 1) * σ + 1)⌋).toNat : ℝ) ≤ 1 := by
          rw [hc]
          have := Int.lt_floor_add_one ((i : ℝ) * ((t / estimate_pitch rate b - 1) * σ + 1))
          linarith
        have hA := getD_abs_le_maxAbs
          (show (⌊(i : ℝ) * ((t / estimate_pitch rate b - 1) * σ + 1)⌋).toNat < b.length by omega)
        have hB := getD_abs_le_maxAbs
          (show (⌊(i : ℝ) * ((t / estimate_pitch rate b - 1) * σ + 1)⌋).toNat + 1 < b.length by omega)
        set idx := (⌊(i : ℝ) * ((t / estimate_pitch rate b - 1) * σ + 1)⌋).toNat
        set f := (i : ℝ) * ((t / estimate_pitch rate b - 1) * σ + 1) - (idx : ℝ)
        calc |b.getD idx 0 * (1 - f) + b.getD (idx + 1) 0 * f|
            ≤ |b.getD idx 0 * (1 - f)| + |b.getD (idx + 1) 0 * f| := abs_add _ _
          _ = |b.getD idx 0| * (1 - f) + |b.getD (idx + 1) 0| * f := by
              rw [abs_mul, abs_mul, abs_of_nonneg (by linarith : (0:ℝ) ≤ 1 - f),
                abs_of_nonneg hfrac0]
          _ ≤ maxAbs b * (1 - f) + maxAbs b * f := by
              exact add_le_add (mul_le_mul_of_nonneg_right hA (by linarith))
                (mul_le_mul_of_nonneg_right hB hfrac0)
          _ = maxAbs b := by ring
      · exact getD_abs_le_maxAbs hb2
      · rw [abs_zero]
        exact maxAbs_nonneg b

/-- Witness for the amended C10 on a concrete passthrough call, read at the
first output sample. -/
theorem claim10_witness : |(1 : ℝ)| ≤ maxAbs ([1, 2] : List ℝ) :=
  claim10_no_amplification 3000 [1, 2] 440 (1 / 2) [1, 2] (by norm_num) process_small_eval
    1 (by simp)

end Autotune

end MusicAI

namespace MusicAI

namespace Autotune

/-- On the alternating 12-sample buffer, lag 3 pairs samples of opposite
parity, so the correlation numerator is 0. -/
theorem b12_ac3 : autocorrelation ([1, 0, 1, 0, 1, 0, 1, 0, 1, 0, 1, 0] : List ℝ) 3 = 0 := by
  have hnum : acNum ([1, 0, 1, 0, 1, 0, 1, 0, 1, 0, 1, 0] : List ℝ) 3 = 0 := by
    norm_num [acNum, Finset.sum_range_succ]
  unfold autocorrelation
  split_ifs with h
  · rfl
  · rw [hnum, zero_div]

/-- On the alternating 12-sample buffer, lag 4 aligns the period exactly and
the normalized correlation is 1. -/
theorem b12_ac4 : autocorrelation ([1, 0, 1, 0, 1, 0, 1, 0, 1, 0, 1, 0] : List ℝ) 4 = 1 := by
  have hnum : acNum ([1, 0, 1, 0, 1, 0, 1, 0, 1, 0, 1, 0] : List ℝ) 4 = 4 := by
    norm_num [acNum, Finset.sum_range_succ]
  have he1 : acEnergy1 ([1, 0, 1, 0, 1, 0, 1, 0, 1, 0, 1, 0] : List ℝ) 4 = 4 := by
    norm_num [acEnergy1, Finset.sum_range_succ]
  have he2 : acEnergy2 ([1, 0, 1, 0, 1, 0, 1, 0, 1, 0, 1, 0] : List ℝ) 4 = 4 := by
    norm_num [acEnergy2, Finset.sum_range_succ]
  unfold autocorrelation
  rw [he1, he2, hnum, if_neg (by norm_num)]
  rw [show (4 : ℝ) * 4 = 4 ^ 2 by norm_num, Real.sqrt_sq (by norm_num : (0 : ℝ) ≤ 4)]
  norm_num

/-- On the alternating 12-sample buffer, lag 5 also pairs opposite parities,
so the correlation is 0. -/
theorem b12_ac5 : autocorrelation ([1, 0, 1, 0, 1, 0, 1, 0, 1, 0, 1, 0] : List ℝ) 5 = 0 := by
  have hnum : acNum ([1, 0, 1, 0, 1, 0, 1, 0, 1, 0, 1, 0] : List ℝ) 5 = 0 := by
    norm_num [acNum, Finset.sum_range_succ]
  unfold autocorrelation
  split_ifs with h
  · rfl
  · rw [hnum, zero_div]

/-- The lag range scanned at rate 3000 on a 12-sample buffer is [3, 4, 5]. -/
theorem b12_lags :
    searchedLags 3000 ([1, 0, 1, 0, 1, 0, 1, 0, 1, 0, 1, 0] : List ℝ) = [3, 4, 5] := rfl

/-- The coarse search on the alternating buffer picks correlation 1 at lag 4. -/
theorem b12_best :
    bestCorrPeriod 3000 ([1, 0, 1, 0, 1, 0, 1, 0, 1, 0, 1, 0] : List ℝ) = (1, 4) := by
  unfold bestCorrPeriod
  rw [b12_lags]
  show List.foldl (bestStep ([1, 0, 1, 0, 1, 0, 1, 0, 1, 0, 1, 0] : List ℝ)) (0, 3) [3, 4, 5] =
    (1, 4)
  rw [List.foldl_cons, List.foldl_cons, List.foldl_cons, List.foldl_nil]
  have s1 : bestStep ([1, 0, 1, 0, 1, 0, 1, 0, 1, 0, 1, 0] : List ℝ) (0, 3) 3 = (0, 3) := by
    norm_num [bestStep, b12_ac3]
  have s2 : bestStep ([1, 0, 1, 0, 1, 0, 1, 0, 1, 0, 1, 0] : List ℝ) (0, 3) 4 = (1, 4) := by
    norm_num [bestStep, b12_ac4]
  have s3 : bestStep ([1, 0, 1, 0, 1, 0, 1, 0, 1, 0, 1, 0] : List ℝ) (1, 4) 5 = (1, 4) := by
    norm_num [bestStep, b12_ac5]
  rw [s1, s2, s3]

/-- The coarse estimate on the alternating buffer is 3000 / 4 = 750 Hz. -/
theorem b12_estimate :
    estimate_pitch 3000 ([1, 0, 1, 0, 1, 0, 1, 0, 1, 0, 1, 0] : List ℝ) = 750 := by
  unfold estimate_pitch
  rw [b12_best]
  norm_num

/-- With target -3000 and strength 1 the blended shift amount is -4 and the
call resamples. -/
theorem b12_process :
    process 3000 ([1, 0, 1, 0, 1, 0, 1, 0, 1, 0, 1, 0] : List ℝ) (-3000) 1 =
      .ok (pitch_shift ([1, 0, 1, 0, 1, 0, 1, 0, 1, 0, 1, 0] : List ℝ) (-4)) := by
  unfold process
  rw [if_neg (by simp), if_neg (by norm_num), if_neg (by rw [b12_estimate]; norm_num)]
  rw [b12_estimate]
  norm_num

/-- At output index 1 the negative shift saturates the source index to 0 and
the interpolation weight becomes -4, extrapolating to the value 5. -/
theorem b12_out1 :
    (pitch_shift ([1, 0, 1, 0, 1, 0, 1, 0, 1, 0, 1, 0] : List ℝ) (-4)).getD 1 0 = 5 := by
  have h2 : ¬|(-4 : ℝ) - 1| < 1 / 1000 := by norm_num
  rw [pitch_shift_getD h2
    (by norm_num : (1 : ℕ) < ([1, 0, 1, 0, 1, 0, 1, 0, 1, 0, 1, 0] : List ℝ).length)]
  have e0 : (⌊((1 : ℕ) : ℝ) * (-4)⌋).toNat = 0 := by norm_num
  rw [e0]
  norm_num

/-- The largest input magnitude of the alternating buffer is 1. -/
theorem b12_maxAbs : maxAbs ([1, 0, 1, 0, 1, 0, 1, 0, 1, 0, 1, 0] : List ℝ) = 1 := by
  norm_num [maxAbs]

/-- Counterexample to C10 as stated: a successful process call (nonempty
buffer, strength 1, target -3000) produces an output sample of magnitude 5
while the largest input magnitude is 1 — the saturating cast makes the
interpolation weight negative, so the combination is not convex and the
signal is amplified. -/
theorem claim10_counterexample :
    process 3000 ([1, 0, 1, 0, 1, 0, 1, 0, 1, 0, 1, 0] : List ℝ) (-3000) 1 =
      .ok (pitch_shift ([1, 0, 1, 0, 1, 0, 1, 0, 1, 0, 1, 0] : List ℝ) (-4)) ∧
      ¬(|(pitch_shift ([1, 0, 1, 0, 1, 0, 1, 0, 1, 0, 1, 0] : List ℝ) (-4)).getD 1 0| ≤
        maxAbs ([1, 0, 1, 0, 1, 0, 1, 0, 1, 0, 1, 0] : List ℝ)) := by
  refine ⟨b12_process, ?_⟩
  rw [b12_out1, b12_maxAbs]
  norm_num

end Autotune

end MusicAI

namespace MusicAI

namespace Autotune

/-- Reading a scaled buffer in bounds scales the sample. -/
theorem getD_map_mul {b : List ℝ} {c : ℝ} {i : ℕ} (hi : i < b.length) :
    (b.map (fun x => c * x)).getD i 0 = c * b.getD i 0 := by
  rw [List.getD_eq_getElem _ _ (by simpa using hi), List.getD_eq_getElem _ _ hi,
    List.getElem_map]

/-- Scaling the buffer multiplies the correlation numerator by c squared. -/
theorem acNum_map (b : List ℝ) (c : ℝ) (lag : ℕ) :
    acNum (b.map (fun x => c * x)) lag = c ^ 2 * acNum b lag := by
  unfold acNum
  rw [List.length_map, Finset.mul_sum]
  refine Finset.sum_congr rfl fun i hi => ?_
  have h1 := Finset.mem_range.mp hi
  rw [getD_map_mul (by omega), getD_map_mul (by omega)]
  ring

/-- Scaling the buffer multiplies the first energy term by c squared. -/
theorem acEnergy1_map (b : List ℝ) (c : ℝ) (lag : ℕ) :
    acEnergy1 (b.map (fun x => c * x)) lag = c ^ 2 * acEnergy1 b lag := by
  unfold acEnergy1
  rw [List.length_map, Finset.mul_sum]
  refine Finset.sum_congr rfl fun i hi => ?_
  have h1 := Finset.mem_range.mp hi
  rw [getD_map_mul (by omega)]
  ring

/-- Scaling the buffer multiplies the second energy term by c squared. -/
theorem acEnergy2_map (b : List ℝ) (c : ℝ) (lag : ℕ) :
    acEnergy2 (b.map (fun x => c * x)) lag = c ^ 2 * acEnergy2 b lag := by
  unfold acEnergy2
  rw [List.length_map, Finset.mul_sum]
  refine Finset.sum_congr rfl fun i hi => ?_
  have h1 := Finset.mem_range.mp hi
  rw [getD_map_mul (by omega)]
  ring

/-- When neither buffer trips the 1e-10 energy floor at a lag, the
normalized autocorrelation is invariant under scaling by a nonzero c. -/
theorem autocorrelation_map {b : List ℝ} {c : ℝ} (hc : c ≠ 0) (lag : ℕ)
    (he1 : 1 / 10 ^ 10 ≤ acEnergy1 b lag) (he2 : 1 / 10 ^ 10 ≤ acEnergy2 b lag)
    (he1c : 1 / 10 ^ 10 ≤ acEnergy1 (b.map (fun x => c * x)) lag)
    (he2c : 1 / 10 ^ 10 ≤ acEnergy2 (b.map (fun x => c * x)) lag) :
    autocorrelation (b.map (fun x => c * x)) lag = autocorrelation b lag := by
  unfold autocorrelation
  rw [if_neg (by push_neg; exact ⟨he1c, he2c⟩), if_neg (by push_neg; exact ⟨he1, he2⟩)]
  rw [acNum_map, acEnergy1_map, acEnergy2_map]
  rw [show c ^ 2 * acEnergy1 b lag * (c ^ 2 * acEnergy2 b lag) =
      (c ^ 2) ^ 2 * (acEnergy1 b lag * acEnergy2 b lag) by ring]
  rw [Real.sqrt_mul (by positivity) _, Real.sqrt_sq (sq_nonneg c)]
  exact mul_div_mul_left _ _ (pow_ne_zero 2 hc)

/-- C8 (amended): scaling every sample by a nonzero constant does not change
the lag selected by the coarse search, provided no scanned lag's energies —
of the original or of the scaled buffer — fall below the absolute 1e-10
floor of the autocorrelation guard. -/
theorem claim8_scale_invariance (rate : ℕ) (b : List ℝ) (c : ℝ) (hc : c ≠ 0)
    (hE : ∀ lag ∈ searchedLags rate b,
      1 / 10 ^ 10 ≤ acEnergy1 b lag ∧ 1 / 10 ^ 10 ≤ acEnergy2 b lag ∧
      1 / 10 ^ 10 ≤ acEnergy1 (b.map (fun x => c * x)) lag ∧
      1 / 10 ^ 10 ≤ acEnergy2 (b.map (fun x => c * x)) lag) :
    bestCorrPeriod rate (b.map (fun x => c * x)) = bestCorrPeriod rate b := by
  unfold bestCorrPeriod
  have hlags : searchedLags rate (b.map (fun x => c * x)) = searchedLags rate b := by
    unfold searchedLags
    rw [List.length_map]
  rw [hlags]
  have key : ∀ (l : List ℕ),
      (∀ lag ∈ l, 1 / 10 ^ 10 ≤ acEnergy1 b lag ∧ 1 / 10 ^ 10 ≤ acEnergy2 b lag ∧
        1 / 10 ^ 10 ≤ acEnergy1 (b.map (fun x => c * x)) lag ∧
        1 / 10 ^ 10 ≤ acEnergy2 (b.map (fun x => c * x)) lag) →
      ∀ init, l.foldl (bestStep (b.map (fun x => c * x))) init = l.foldl (bestStep b) init := by
    intro l
    induction l with
    | nil => intro _ init; rfl
    | cons a l ih =>
      intro hE' init
      rw [List.foldl_cons, List.foldl_cons]
      have ha := hE' a (List.mem_cons_self a l)
      have hstep : bestStep (b.map (fun x => c * x)) init a = bestStep b init a := by
        unfold bestStep
        rw [autocorrelation_map hc a ha.1 ha.2.1 ha.2.2.1 ha.2.2.2]
      rw [hstep]
      exact ih (fun lag hm => hE' lag (List.mem_cons_of_mem a hm)) _
  exact key _ hE _

/-- Witness for the amended C8: scaling the sparse 10-sample buffer by 2
keeps all scanned energies above the floor and preserves the selected pair. -/
theorem claim8_witness :
    bestCorrPeriod 3000 (([1, 0, 0, 0, 1, 0, 0, 0, 0, 0] : List ℝ).map (fun x => (2 : ℝ) * x)) =
      bestCorrPeriod 3000 ([1, 0, 0, 0, 1, 0, 0, 0, 0, 0] : List ℝ) := by
  refine claim8_scale_invariance 3000 [1, 0, 0, 0, 1, 0, 0, 0, 0, 0] 2 (by norm_num) ?_
  intro lag hm
  have hlag : lag = 3 ∨ lag = 4 := by
    have hl : searchedLags 3000 ([1, 0, 0, 0, 1, 0, 0, 0, 0, 0] : List ℝ) = [3, 4] := rfl
    rw [hl] at hm
    simpa using hm
  have hmap : ([1, 0, 0, 0, 1, 0, 0, 0, 0, 0] : List ℝ).map (fun x => (2 : ℝ) * x) =
      [2, 0, 0, 0, 2, 0, 0, 0, 0, 0] := by norm_num
  rw [hmap]
  rcases hlag with rfl | rfl
  · exact ⟨by norm_num [acEnergy1, Finset.sum_range_succ],
      by norm_num [acEnergy2, Finset.sum_range_succ],
      by norm_num [acEnergy1, Finset.sum_range_succ],
      by norm_num [acEnergy2, Finset.sum_range_succ]⟩
  · exact ⟨by norm_num [acEnergy1, Finset.sum_range_succ],
      by norm_num [acEnergy2, Finset.sum_range_succ],
      by norm_num [acEnergy1, Finset.sum_range_succ],
      by norm_num [acEnergy2, Finset.sum_range_succ]⟩

end Autotune

end MusicAI

namespace MusicAI

namespace Autotune

/-- On the sparse 10-sample buffer, lag 3 misses both pulses, so the
correlation numerator is 0. -/
theorem b10_ac3 : autocorrelation ([1, 0, 0, 0, 1, 0, 0, 0, 0, 0] : List ℝ) 3 = 0 := by
  have hnum : acNum ([1, 0, 0, 0, 1, 0, 0, 0, 0, 0] : List ℝ) 3 = 0 := by
    norm_num [acNum, Finset.sum_range_succ]
  unfold autocorrelation
  split_ifs with h
  · rfl
  · rw [hnum, zero_div]

/-- On the sparse 10-sample buffer, lag 4 aligns the two pulses and the
normalized correlation is 1 / sqrt 2. -/
theorem b10_ac4 :
    autocorrelation ([1, 0, 0, 0, 1, 0, 0, 0, 0, 0] : List ℝ) 4 = 1 / Real.sqrt 2 := by
  have hnum : acNum ([1, 0, 0, 0, 1, 0, 0, 0, 0, 0] : List ℝ) 4 = 1 := by
    norm_num [acNum, Finset.sum_range_succ]
  have he1 : acEnergy1 ([1, 0, 0, 0, 1, 0, 0, 0, 0, 0] : List ℝ) 4 = 2 := by
    norm_num [acEnergy1, Finset.sum_range_succ]
  have he2 : acEnergy2 ([1, 0, 0, 0, 1, 0, 0, 0, 0, 0] : List ℝ) 4 = 1 := by
    norm_num [acEnergy2, Finset.sum_range_succ]
  unfold autocorrelation
  rw [he1, he2, hnum, if_neg (by norm_num)]
  norm_num

/-- The coarse search on the sparse buffer selects lag 4. -/
theorem b10_best :
    bestCorrPeriod 3000 ([1, 0, 0, 0, 1, 0, 0, 0, 0, 0] : List ℝ) = (1 / Real.sqrt 2, 4) := by
  unfold bestCorrPeriod
  have hl : searchedLags 3000 ([1, 0, 0, 0, 1, 0, 0, 0, 0, 0] : List ℝ) = [3, 4] := rfl
  rw [hl]
  show List.foldl (bestStep ([1, 0, 0, 0, 1, 0, 0, 0, 0, 0] : List ℝ)) (0, 3) [3, 4] =
    (1 / Real.sqrt 2, 4)
  rw [List.foldl_cons, List.foldl_cons, List.foldl_nil]
  have s1 : bestStep ([1, 0, 0, 0, 1, 0, 0, 0, 0, 0] : List ℝ) (0, 3) 3 = (0, 3) := by
    norm_num [bestStep, b10_ac3]
  have s2 : bestStep ([1, 0, 0, 0, 1, 0, 0, 0, 0, 0] : List ℝ) (0, 3) 4 =
      (1 / Real.sqrt 2, 4) := by
    unfold bestStep
    rw [b10_ac4, if_pos (by show (0 : ℝ) < 1 / Real.sqrt 2; positivity)]
  rw [s1, s2]

/-- Scaled by 1e-6, both pulse energies drop to 2e-12, below the 1e-10
floor, so the correlation at lag 3 is clamped to 0. -/
theorem b10c_ac3 :
    autocorrelation ([1 / 1000000, 0, 0, 0, 1 / 1000000, 0, 0, 0, 0, 0] : List ℝ) 3 = 0 := by
  have he1 : acEnergy1 ([1 / 1000000, 0, 0, 0, 1 / 1000000, 0, 0, 0, 0, 0] : List ℝ) 3 =
      2 / 10 ^ 12 := by
    norm_num [acEnergy1, Finset.sum_range_succ]
  unfold autocorrelation
  rw [if_pos (Or.inl (by rw [he1]; norm_num))]

/-- Scaled by 1e-6, the lag-4 energies also fall below the floor and the
correlation is clamped to 0. -/
theorem b10c_ac4 :
    autocorrelation ([1 / 1000000, 0, 0, 0, 1 / 1000000, 0, 0, 0, 0, 0] : List ℝ) 4 = 0 := by
  have he1 : acEnergy1 ([1 / 1000000, 0, 0, 0, 1 / 1000000, 0, 0, 0, 0, 0] : List ℝ) 4 =
      2 / 10 ^ 12 := by
    norm_num [acEnergy1, Finset.sum_range_succ]
  unfold autocorrelation
  rw [if_pos (Or.inl (by rw [he1]; norm_num))]

/-- With all correlations clamped to 0 the fold never updates, leaving the
initial lag 3. -/
theorem b10c_best :
    bestCorrPeriod 3000 ([1 / 1000000, 0, 0, 0, 1 / 1000000, 0, 0, 0, 0, 0] : List ℝ) =
      (0, 3) := by
  unfold bestCorrPeriod
  have hl : searchedLags 3000
      ([1 / 1000000, 0, 0, 0, 1 / 1000000, 0, 0, 0, 0, 0] : List ℝ) = [3, 4] := rfl
  rw [hl]
  show List.foldl (bestStep ([1 / 1000000, 0, 0, 0, 1 / 1000000, 0, 0, 0, 0, 0] : List ℝ))
    (0, 3) [3, 4] = (0, 3)
  rw [List.foldl_cons, List.foldl_cons, List.foldl_nil]
  have s1 : bestStep ([1 / 1000000, 0, 0, 0, 1 / 1000000, 0, 0, 0, 0, 0] : List ℝ)
      (0, 3) 3 = (0, 3) := by
    norm_num [bestStep, b10c_ac3]
  have s2 : bestStep ([1 / 1000000, 0, 0, 0, 1 / 1000000, 0, 0, 0, 0, 0] : List ℝ)
      (0, 3) 4 = (0, 3) := by
    norm_num [bestStep, b10c_ac4]
  rw [s1, s2]

/-- Counterexample to C8 as stated: scaling the sparse buffer by the nonzero
constant 1e-6 pushes the energies below the guard's absolute 1e-10 floor, so
the scaled search clamps every correlation to 0 and keeps the initial lag 3,
while the unscaled search selects lag 4. -/
theorem claim8_counterexample :
    ((1 / 1000000 : ℝ) ≠ 0) ∧
      (bestCorrPeriod 3000 (([1, 0, 0, 0, 1, 0, 0, 0, 0, 0] : List ℝ).map
          (fun x => (1 / 1000000 : ℝ) * x))).2 ≠
        (bestCorrPeriod 3000 ([1, 0, 0, 0, 1, 0, 0, 0, 0, 0] : List ℝ)).2 := by
  have hmap : ([1, 0, 0, 0, 1, 0, 0, 0, 0, 0] : List ℝ).map (fun x => (1 / 1000000 : ℝ) * x) =
      [1 / 1000000, 0, 0, 0, 1 / 1000000, 0, 0, 0, 0, 0] := by
    norm_num
  refine ⟨by norm_num, ?_⟩
  rw [hmap, b10c_best, b10_best]
  norm_num

end Autotune

end MusicAI
